import Mathlib

/-!
Verification of the resolution-attribution pipeline of
`SupportLeaderboardSlackbot.py`.

The Python source is shallowly embedded: every remote interaction is
represented by an explicit environment (pure functions describing what each
call returns), sleeps are recorded as data instead of performed, and the
control flow of each Python function is reproduced definition by definition.
-/

namespace SupportLeaderboard

/-! ### Rate-limited request executor (`retry_api_call`)

`retry_api_call(api_func, max_retries)` loops `for attempt in range(max_retries)`,
calling `api_func()`.  A `SlackApiError` carries an error code and, for rate
limiting, an optional `Retry-After` header.  The embedding models one call
attempt as `ApiAttempt` and the whole wrapper as a fuel-indexed loop that
records every `time.sleep` duration and the number of calls made. -/

/-- Outcome of a single invocation of `api_func`: a result, or a
`SlackApiError` with its `error` code and optional `Retry-After` header
(`none` when the header is absent). -/
inductive ApiAttempt (α : Type) where
  | ok (r : α)
  | err (code : String) (retryAfter : Option Nat)
deriving Repr, DecidableEq

/-- Result of `retry_api_call`: the returned value, a re-raised
`SlackApiError` code, or the final `Max retries exceeded` exception; each
carries the list of sleep durations performed and how many times `api_func`
was called. -/
inductive RetryOutcome (α : Type) where
  | success (r : α) (sleeps : List Nat) (calls : Nat)
  | raised (code : String) (sleeps : List Nat) (calls : Nat)
  | exhausted (sleeps : List Nat) (calls : Nat)
deriving Repr, DecidableEq

/-- `MAX_RETRIES` from the configuration block. -/
def MAX_RETRIES : Nat := 3

/-- `INITIAL_RETRY_DELAY` (seconds) from the configuration block. -/
def INITIAL_RETRY_DELAY : Nat := 1

/-- The `for attempt in range(max_retries)` loop of `retry_api_call`.
`fuel` counts the attempts that remain (`maxRetries - attempt` at every real
call site), `attempt` is the loop index, `retryDelay` the current backoff
delay, `sleeps` and `calls` the recorded effects.  The branch structure
mirrors the Python exactly: rate limiting sleeps `Retry-After` (defaulting to
`retry_delay`) and assigns `retry_delay = retry_after`; the two transient
codes sleep `retry_delay` and double it, but only when `attempt <
max_retries - 1`, otherwise the error is re-raised; every other code is
re-raised at once; falling off the loop raises `Max retries exceeded`. -/
def retryLoop (apiFunc : Nat → ApiAttempt α) (maxRetries : Nat) :
    Nat → Nat → Nat → List Nat → Nat → RetryOutcome α
  | 0, _, _, sleeps, calls => .exhausted sleeps calls
  | fuel + 1, attempt, retryDelay, sleeps, calls =>
    match apiFunc attempt with
    | .ok r => .success r sleeps (calls + 1)
    | .err code retryAfter =>
      if code = "rate_limited" then
        let ra := retryAfter.getD retryDelay
        retryLoop apiFunc maxRetries fuel (attempt + 1) ra (sleeps ++ [ra]) (calls + 1)
      else if code = "service_unavailable" ∨ code = "internal_error" then
        if attempt < maxRetries - 1 then
          retryLoop apiFunc maxRetries fuel (attempt + 1) (retryDelay * 2)
            (sleeps ++ [retryDelay]) (calls + 1)
        else .raised code sleeps (calls + 1)
      else .raised code sleeps (calls + 1)

/-- `retry_api_call(api_func, max_retries)`: run the retry loop from attempt
0 with the initial delay and no recorded effects. -/
def retry_api_call (apiFunc : Nat → ApiAttempt α) (maxRetries : Nat) : RetryOutcome α :=
  retryLoop apiFunc maxRetries maxRetries 0 INITIAL_RETRY_DELAY [] 0

/-- Concrete call schedule refuting C4: first attempt is rate limited with
`Retry-After: 5`, second is a transient `service_unavailable`, third
succeeds. -/
def rateLimitThenTransient : Nat → ApiAttempt Nat
  | 0 => .err "rate_limited" (some 5)
  | 1 => .err "service_unavailable" none
  | _ => .ok 42

/-- Concrete call schedule for the C5 witness: two transient failures, then
success. -/
def twoTransientThenOk : Nat → ApiAttempt Nat
  | 0 => .err "service_unavailable" none
  | 1 => .err "internal_error" none
  | _ => .ok 7

/-! ### Window calculator (`get_week_range`)

`datetime` values are abstracted to a day number (`Int`, so arbitrary dates
exist) plus the seconds elapsed since that day's midnight.  Day numbers are
aligned so that `day % 7 = 0` means Monday, matching Python's
`weekday()` convention `Monday = 0`.  Subtracting a whole number of days and
`.replace(hour=0, minute=0, second=0, microsecond=0)` act only on these two
fields, so the abstraction is exact for `get_week_range`. -/

/-- A Python `datetime`: day number (Monday ⟺ `day % 7 = 0`) and seconds
since midnight. -/
structure PyDateTime where
  day : Int
  sec : Nat
deriving Repr, DecidableEq

/-- `datetime.weekday()`: 0 for Monday through 6 for Sunday. -/
def PyDateTime.weekday (t : PyDateTime) : Nat := (t.day % 7).toNat

/-- Strict `<` on `datetime` values. -/
def PyDateTime.before (a b : PyDateTime) : Prop :=
  a.day < b.day ∨ (a.day = b.day ∧ a.sec < b.sec)

/-- `get_week_range(weeks_ago)` with the current time `now` injected:
`days_since_monday = (today.weekday() + 7) % 7`, bumped to 7 when today is
Monday; `last_monday = today - timedelta(days=days_since_monday + 7 +
weeks_ago * 7)` with the time replaced by midnight; `last_sunday =
last_monday + timedelta(days=6, hours=23, minutes=59, seconds=59)`. -/
def get_week_range (now : PyDateTime) (weeks_ago : Nat) : PyDateTime × PyDateTime :=
  let days_since_monday0 := (now.weekday + 7) % 7
  let days_since_monday := if days_since_monday0 = 0 then 7 else days_since_monday0
  let last_monday : PyDateTime :=
    { day := now.day - ((days_since_monday + 7 + weeks_ago * 7 : Nat) : Int), sec := 0 }
  let last_sunday : PyDateTime :=
    { day := last_monday.day + 6, sec := 23 * 3600 + 59 * 60 + 59 }
  (last_monday, last_sunday)

/-- The window start as C2's sentence describes it: the most recent Monday
strictly before today (a full week back when today is itself Monday), minus
`weeks_ago` additional full weeks.  Stated from the spec's words only, as
the refinement target for `get_week_range`. -/
def spec_week_start (now : PyDateTime) (weeks_ago : Nat) : Int :=
  let d := if now.weekday = 0 then 7 else now.weekday
  now.day - ((d + weeks_ago * 7 : Nat) : Int)

/-! ### Counting resolutions (`count_resolutions_by_reactions`)

A Python `Counter` keyed by display name is an insertion-ordered association
list: incrementing an existing key leaves its position unchanged, a new key
is appended.  The Slack remote calls are abstracted into a `CountEnv`:
`reactionsFor ts` is the reaction list returned by `reactions.get` for the
message with timestamp `ts` (the error paths of `get_reactions_for_message`
all return the empty mapping, modeled by an empty list), and `usersInfo k
uid` is the outcome of the `users_info` call made at global call index `k`
(`none` models the call raising, e.g. after retry exhaustion). -/

/-- `RESOLUTION_EMOJI` from the configuration block. -/
def RESOLUTION_EMOJI : String := "white_check_mark"

/-- A Python `Counter` over display names, as an insertion-ordered
association list. -/
abbrev Counter := List (String × Nat)

/-- `counter[name] += 1`: bump an existing key in place, else append it with
count 1. -/
def incr : Counter → String → Counter
  | [], name => [(name, 1)]
  | (n, k) :: rest, name =>
    if n = name then (n, k + 1) :: rest else (n, k) :: incr rest name

/-- Build a `Counter` by counting each name of a list in order. -/
def counterOfList (names : List String) : Counter :=
  names.foldl incr []

/-- `sum(counter.values())`. -/
def counterTotal (c : Counter) : Nat :=
  (c.map (fun p => p.2)).sum

/-- `list(counter.keys())`, in insertion order. -/
def counterKeys (c : Counter) : List String :=
  c.map (fun p => p.1)

/-- One entry of a message's `reactions` list: emoji name and the users who
applied it. -/
structure Reaction where
  name : String
  users : List String
deriving Repr, DecidableEq

/-- A Slack message as used by this program: its `ts`, `user`, `text` and
`reactions` fields. -/
structure Message where
  ts : String
  user : String
  text : String
  reactions : List Reaction
deriving Repr, DecidableEq

/-- The `user` object returned by `users_info`: `real_name` and `is_bot`. -/
structure SlackUser where
  real_name : String
  is_bot : Bool
deriving Repr, DecidableEq

/-- Python dict assignment `d[k] = v` on an insertion-ordered association
list: overwrite an existing key in place, else append. -/
def dictSet : List (String × List String) → String → List String → List (String × List String)
  | [], k, v => [(k, v)]
  | (k', v') :: rest, k, v =>
    if k' = k then (k', v) :: rest else (k', v') :: dictSet rest k v

/-- `d.get(k, [])` on such a dict. -/
def dictGet (d : List (String × List String)) (k : String) : List String :=
  match d.find? (fun p => p.1 == k) with
  | some p => p.2
  | none => []

/-- The dict `{emoji_name: users}` that `get_reactions_for_message` builds
from the reaction records of the detail response. -/
def reaction_data (reactions : List Reaction) : List (String × List String) :=
  reactions.foldl (fun d r => dictSet d r.name r.users) []

/-- The remote environment seen by `count_resolutions_by_reactions`. -/
structure CountEnv where
  reactionsFor : String → List Reaction
  usersInfo : Nat → String → Option SlackUser

/-- The `for user_id in resolver_ids` loop: look the user up (`k` is the
global `users_info` call index), skip bots, credit `real_name`, and on a
lookup failure credit the fallback label `"User <id>"`.  Returns the next
call index and the updated counter. -/
def creditUsers (env : CountEnv) : List String → Nat → Counter → Nat × Counter
  | [], k, c => (k, c)
  | uid :: rest, k, c =>
    match env.usersInfo k uid with
    | some u =>
      creditUsers env rest (k + 1) (if u.is_bot then c else incr c u.real_name)
    | none => creditUsers env rest (k + 1) (incr c ("User " ++ uid))

/-- The body of the `for i, message in enumerate(messages)` loop: skip a
message without reactions, skip one whose reaction list does not carry
`RESOLUTION_EMOJI`, otherwise fetch the reaction detail for the message's
`ts` and credit every user who applied the resolution emoji. -/
def countStep (env : CountEnv) (st : Nat × Counter) (msg : Message) : Nat × Counter :=
  if msg.reactions.isEmpty then st
  else if msg.reactions.any (fun r => r.name == RESOLUTION_EMOJI) then
    creditUsers env
      (dictGet (reaction_data (env.reactionsFor msg.ts)) RESOLUTION_EMOJI)
      st.1 st.2
  else st

/-- `count_resolutions_by_reactions`, with the already fetched message list
and the remote environment as inputs. -/
def count_resolutions_by_reactions (env : CountEnv) (messages : List Message) : Counter :=
  (messages.foldl (countStep env) (0, [])).2

/-- The concatenated resolver lists of the messages carrying the resolution
emoji, in processing order: one entry per `users_info` call the loop
makes. -/
def reactedResolverIds (env : CountEnv) (messages : List Message) : List String :=
  (messages.filter (fun m => m.reactions.any (fun r => r.name == RESOLUTION_EMOJI))).flatMap
    (fun m => dictGet (reaction_data (env.reactionsFor m.ts)) RESOLUTION_EMOJI)

/-- The display name a user reference resolves to when every `users_info`
call for it behaves as `lookupU`: `none` for a bot (no credit), the real
name on success, the fallback label on failure. -/
def creditName (lookupU : String → Option SlackUser) (uid : String) : Option String :=
  match lookupU uid with
  | some u => if u.is_bot then none else some u.real_name
  | none => some ("User " ++ uid)

/-! ### Ranking (`post_leaderboard` / `Counter.most_common`)

`resolutions.most_common()` is `sorted(items, key=count, reverse=True)` with
CPython's stable sort: descending counts, ties kept in counter insertion
order, which is the order in which each agent was first credited. -/

/-- Stable descending insertion: `x` is placed before the first element
whose count is not larger, so elements inserted earlier keep priority only
through a strictly larger count. -/
def insertDesc (x : String × Nat) : List (String × Nat) → List (String × Nat)
  | [] => [x]
  | y :: ys => if x.2 < y.2 then y :: insertDesc x ys else x :: y :: ys

/-- `counter.most_common()`: a stable sort of the counter's items by count
descending. -/
def most_common (c : Counter) : List (String × Nat) :=
  c.foldr insertDesc []

/-- First-seen deduplication of a name sequence, in order of first
appearance: the "(deduplicated) input sequence" of C7. -/
def firstSeen (names : List String) : List String :=
  names.foldl (fun acc n => if n ∈ acc then acc else acc ++ [n]) []

/-- Index of the first occurrence of a name in a list (length when
absent). -/
def idxOf (l : List String) (n : String) : Nat :=
  match l with
  | [] => 0
  | x :: xs => if x = n then 0 else idxOf xs n + 1

/-! ### Duplicate-publication guard (`check_for_duplicate_leaderboard`)

The guard fetches up to 100 recent messages of the leaderboard channel and
scans them: a message not authored by the bot's own user id is skipped; the
guard returns `True` on the first message whose text contains both the fixed
title `"Weekly Resolution Leaderboard"` and the rendered date-range string,
and `False` when none matches. -/

/-- Python's `sub in s` on strings. -/
def strHasSub (s sub : String) : Bool :=
  s.data.tails.any (fun t => sub.data.isPrefixOf t)

/-- `check_for_duplicate_leaderboard`, over the fetched recent messages (at
most 100), the bot's own user id from `auth.test`, and the rendered
`date_range_str`. -/
def check_for_duplicate_leaderboard (botUserId dateRangeStr : String)
    (messages : List Message) : Bool :=
  messages.any (fun m =>
    m.user == botUserId
      && strHasSub m.text "Weekly Resolution Leaderboard"
      && strHasSub m.text dateRangeStr)

/-! ### The per-week loop of `main`

`main` iterates `for weeks_ago in weeks_to_process` with no `try` around the
body: `check_for_duplicate_leaderboard` swallows its own errors and only
steers the `continue`, while an exception escaping
`count_resolutions_by_reactions` or `post_leaderboard` propagates out of the
loop and ends the run.  Each stage's outcome is abstracted into a
`WeekEnv`. -/

/-- Outcomes of the three per-week stages: the duplicate guard (never
raises), the counting pipeline and the posting step (`Except.error` models
an uncaught exception). -/
structure WeekEnv (α : Type) where
  dupCheck : Nat → Bool
  countRes : Nat → Except String α
  post : Nat → α → Except String Unit

/-- The `for weeks_ago in weeks_to_process` loop: returns the list of weeks
whose processing was started, and the exception that ended the run, if
any. -/
def processWeeks (env : WeekEnv α) : List Nat → List Nat × Option String
  | [] => ([], none)
  | w :: ws =>
    if env.dupCheck w then
      let rest := processWeeks env ws
      (w :: rest.1, rest.2)
    else
      match env.countRes w with
      | .error e => ([w], some e)
      | .ok res =>
        match env.post w res with
        | .error e => ([w], some e)
        | .ok _ =>
          let rest := processWeeks env ws
          (w :: rest.1, rest.2)

/-- Concrete week environment refuting C1: counting raises for week 0, every
other stage succeeds. -/
def failingWeekZero : WeekEnv Unit where
  dupCheck := fun _ => false
  countRes := fun w => if w = 0 then .error "channel_not_found" else .ok ()
  post := fun _ _ => .ok ()

/-- C8 counterexample message history: one self-authored message whose text
is exactly the rendered week label, without the leaderboard title. -/
def labelOnlyHistory : List Message :=
  [{ ts := "1.0", user := "B0", text := "Jun 02 - Jun 08, 2025", reactions := [] }]

/-- C9 counterexample environment: one reacting user `U1`; the first
`users_info` call for it succeeds with the display name `Alice`, every later
call raises. -/
def flakyLookupEnv : CountEnv where
  reactionsFor := fun _ => [{ name := "white_check_mark", users := ["U1"] }]
  usersInfo := fun k _ => if k = 0 then some { real_name := "Alice", is_bot := false } else none

/-- Two messages of the C9 counterexample, each carrying the resolution
emoji applied by `U1`. -/
def twoReactedMessages : List Message :=
  [{ ts := "1.0", user := "A", text := "q1", reactions := [{ name := "white_check_mark", users := ["U1"] }] },
   { ts := "2.0", user := "A", text := "q2", reactions := [{ name := "white_check_mark", users := ["U1"] }] }]

/-- A deterministic lookup environment: `U1` always resolves to the human
`Alice`, every other reference always fails. -/
def steadyLookup : String → Option SlackUser := fun uid =>
  if uid = "U1" then some { real_name := "Alice", is_bot := false } else none

/-- Counting environment whose `users_info` behaves as `steadyLookup` at
every call index. -/
def steadyLookupEnv : CountEnv where
  reactionsFor := fun _ => [{ name := "white_check_mark", users := ["U1"] }]
  usersInfo := fun _ uid => steadyLookup uid

/-- Counting environment in which every `users_info` call raises. -/
def failingLookupEnv : CountEnv where
  reactionsFor := fun _ => [{ name := "white_check_mark", users := ["U9"] }]
  usersInfo := fun _ _ => none

/-- A single message carrying the resolution emoji. -/
def oneReactedMessage : Message :=
  { ts := "1.0", user := "A", text := "q",
    reactions := [{ name := "white_check_mark", users := ["U1"] }] }

/-- C4, counterexample: the rate-limited retry is not neutral for the
exponential sequence.  After sleeping the reported `Retry-After` of 5,
`retry_delay` is assigned 5, so the following transient retry sleeps 5 as
well; the claim's unaffected exponential sequence would sleep the initial
delay 1 there, i.e. predict the sleep list `[5, 1]`.  The code produces
`[5, 5]`. -/
theorem retry_rate_limited_backoff_cex :
    retry_api_call rateLimitThenTransient 3 = RetryOutcome.success 42 [5, 5] 3 ∧
      retry_api_call rateLimitThenTransient 3 ≠ RetryOutcome.success 42 [5, 1] 3 := by
  constructor
  · rfl
  · decide

/-- C4, amended: when the call at the current attempt fails rate limited, the
Executor sleeps exactly the reported retry-after duration, falling back to
the *current* backoff delay when the header is absent (this equals the
configured default only while no transient retry has doubled it), consumes
one attempt of the shared budget, and *sets* the transient backoff delay to
the slept duration, so subsequent transient delays double from the
retry-after value instead of leaving the exponential sequence unaffected. -/
theorem retry_rate_limited_step (f : Nat → ApiAttempt α) (mx fuel attempt d : Nat)
    (sleeps : List Nat) (calls : Nat) (ra : Option Nat)
    (h : f attempt = .err "rate_limited" ra) :
    retryLoop f mx (fuel + 1) attempt d sleeps calls
      = retryLoop f mx fuel (attempt + 1) (ra.getD d) (sleeps ++ [ra.getD d]) (calls + 1) := by
  simp [retryLoop, h]

/-- Witness for `retry_rate_limited_step` at a concrete schedule. -/
theorem retry_rate_limited_step_witness :
    retryLoop rateLimitThenTransient 3 3 0 1 [] 0
      = retryLoop rateLimitThenTransient 3 2 1 5 [5] 1 :=
  retry_rate_limited_step rateLimitThenTransient 3 2 0 1 [] 0 (some 5) rfl

/-- C5: a call that fails with a transient service error on its first two
attempts and succeeds on the third is retried exactly twice (three calls in
total), returns the successful result, and sleeps the exponential sequence
1 then 2, cumulatively 3. -/
theorem retry_two_transient_then_success (f : Nat → ApiAttempt α) (r : α)
    (c0 c1 : String) (ra0 ra1 : Option Nat)
    (h0 : f 0 = .err c0 ra0) (hc0 : c0 = "service_unavailable" ∨ c0 = "internal_error")
    (h1 : f 1 = .err c1 ra1) (hc1 : c1 = "service_unavailable" ∨ c1 = "internal_error")
    (h2 : f 2 = .ok r) :
    retry_api_call f 3 = RetryOutcome.success r [1, 2] 3 ∧ ([1, 2] : List Nat).sum = 3 := by
  refine ⟨?_, by decide⟩
  rcases hc0 with rfl | rfl <;> rcases hc1 with rfl | rfl <;>
    simp [retry_api_call, retryLoop, h0, h1, h2, INITIAL_RETRY_DELAY]

/-- Witness for `retry_two_transient_then_success`. -/
theorem retry_two_transient_then_success_witness :
    retry_api_call twoTransientThenOk 3 = RetryOutcome.success 7 [1, 2] 3 ∧
      ([1, 2] : List Nat).sum = 3 :=
  retry_two_transient_then_success twoTransientThenOk 7 "service_unavailable"
    "internal_error" none none rfl (Or.inl rfl) rfl (Or.inr rfl) rfl

/-- C2, counterexample: with "now" a Tuesday (day 1, so day 0 is the most
recent Monday strictly before it) and `weeks_ago = 0`, the spec's described
start is day 0, but `get_week_range` returns day `-7`: the code subtracts a
full extra week beyond the most recent Monday strictly before today. -/
theorem get_week_range_spec_start_cex :
    (get_week_range ⟨1, 0⟩ 0).1.day = -7 ∧ spec_week_start ⟨1, 0⟩ 0 = 0 ∧
      (get_week_range ⟨1, 0⟩ 0).1.day ≠ spec_week_start ⟨1, 0⟩ 0 := by
  decide

/-- C2, amended: for every `weeks_ago ≥ 0` the computed start is exactly one
full week *earlier* than the spec's described start (the most recent Monday
strictly before today, a week further back when today is itself Monday,
minus `weeks_ago` weeks): the code always steps back one additional week. -/
theorem get_week_range_start_off_by_week (now : PyDateTime) (w : Nat) :
    (get_week_range now w).1.day = spec_week_start now w - 7 := by
  simp only [get_week_range, spec_week_start, PyDateTime.weekday]
  split_ifs <;> omega

/-- C3: for all `weeks_ago ≥ 0` the window's start is a Monday
(`day % 7 = 0`) at midnight, strictly before the injected "now"; its end is
start plus 6 days 23:59:59; and consecutive offsets differ by exactly 7
days. -/
theorem get_week_range_window_shape (now : PyDateTime) (w : Nat) :
    (get_week_range now w).1.day % 7 = 0 ∧
    (get_week_range now w).1.sec = 0 ∧
    (get_week_range now w).1.before now ∧
    (get_week_range now w).2.day = (get_week_range now w).1.day + 6 ∧
    (get_week_range now w).2.sec = 23 * 3600 + 59 * 60 + 59 ∧
    (get_week_range now (w + 1)).1.day = (get_week_range now w).1.day - 7 := by
  simp only [get_week_range, PyDateTime.weekday, PyDateTime.before]
  split_ifs <;> refine ⟨by omega, trivial, by omega, trivial, trivial, by omega⟩

/-- C1, counterexample: with the counting stage raising for week 0 and
every other stage fine, processing weeks `[0, 1]` ends at week 0 with the
exception; week 1 is never processed, so a failure in one window does abort
the remaining windows. -/
theorem week_loop_abort_cex :
    processWeeks failingWeekZero [0, 1] = ([0], some "channel_not_found") ∧
      1 ∉ (processWeeks failingWeekZero [0, 1]).1 := by
  decide

/-- C1, amended: `main` wraps no `try` around the week body, so an exception
escaping the counting or posting stage aborts the run at that week: the
processed weeks are exactly the requested ones up to and including the first
failing week, and no later requested week is processed (only
duplicate-guard positives are skipped with processing continuing). -/
theorem week_loop_stops_at_first_failure (env : WeekEnv α) (w : Nat) (ws : List Nat)
    (hd : env.dupCheck w = false) :
    (∀ e, env.countRes w = .error e → processWeeks env (w :: ws) = ([w], some e)) ∧
    (∀ r e, env.countRes w = .ok r → env.post w r = .error e →
      processWeeks env (w :: ws) = ([w], some e)) := by
  constructor
  · intro e he
    simp [processWeeks, hd, he]
  · intro r e hr hp
    simp [processWeeks, hd, hr, hp]

/-- Witness for `week_loop_stops_at_first_failure`. -/
theorem week_loop_stops_at_first_failure_witness :
    processWeeks failingWeekZero [0, 1] = ([0], some "channel_not_found") :=
  (week_loop_stops_at_first_failure failingWeekZero 0 [1] rfl).1 "channel_not_found" rfl

/-- Bumping a name increases the counter's total by one. -/
theorem counterTotal_incr (c : Counter) (n : String) :
    counterTotal (incr c n) = counterTotal c + 1 := by
  induction c with
  | nil => simp [incr, counterTotal]
  | cons p rest ih =>
    obtain ⟨n', k'⟩ := p
    simp only [incr]
    split_ifs with h
    · simp only [counterTotal, List.map_cons, List.sum_cons]
      omega
    · simp only [counterTotal, List.map_cons, List.sum_cons] at ih ⊢
      omega

/-- Folding a name list into a counter adds its length to the total. -/
theorem counterTotal_foldl_incr (l : List String) : ∀ c : Counter,
    counterTotal (l.foldl incr c) = counterTotal c + l.length := by
  induction l with
  | nil => intro c; simp
  | cons n rest ih =>
    intro c
    rw [List.foldl_cons, ih, counterTotal_incr]
    simp only [List.length_cons]
    omega

/-- A reaction list carrying the resolution emoji is nonempty. -/
theorem reactions_nonempty_of_any (l : List Reaction)
    (h : l.any (fun r => r.name == RESOLUTION_EMOJI) = true) : l.isEmpty = false := by
  cases l <;> simp_all

/-- `creditUsers` under a deterministic lookup environment: each listed user
reference contributes one bump of the single display name `creditName`
assigns to it (none for a bot), and one `users_info` call. -/
theorem creditUsers_det (env : CountEnv) (lookupU : String → Option SlackUser)
    (hdet : ∀ k uid, env.usersInfo k uid = lookupU uid) (us : List String) :
    ∀ (k : Nat) (c : Counter),
      creditUsers env us k c
        = (k + us.length, (us.filterMap (creditName lookupU)).foldl incr c) := by
  induction us with
  | nil => intro k c; simp [creditUsers]
  | cons uid rest ih =>
    intro k c
    simp only [creditUsers, hdet k uid]
    cases h : lookupU uid with
    | none =>
      simp only [ih, creditName, h, List.filterMap_cons, List.foldl_cons,
        Prod.mk.injEq, List.length_cons]
      exact ⟨by omega, trivial⟩
    | some u =>
      cases hb : u.is_bot <;>
        simp only [ih, creditName, h, hb, List.filterMap_cons, List.foldl_cons,
          Bool.false_eq_true, if_true, if_false, Prod.mk.injEq, List.length_cons] <;>
        exact ⟨by omega, trivial⟩

/-- The counting fold under a deterministic lookup environment: the final
counter tallies, in processing order, the display name of every reacting
reference of every message that carries the resolution emoji. -/
theorem countFold_det (env : CountEnv) (lookupU : String → Option SlackUser)
    (hdet : ∀ k uid, env.usersInfo k uid = lookupU uid) (messages : List Message) :
    ∀ (k : Nat) (c : Counter),
      (messages.foldl (countStep env) (k, c)).2
        = ((reactedResolverIds env messages).filterMap (creditName lookupU)).foldl incr c := by
  induction messages with
  | nil => intro k c; simp [reactedResolverIds]
  | cons m rest ih =>
    intro k c
    cases hr : m.reactions.any (fun r => r.name == RESOLUTION_EMOJI) with
    | false =>
      have hstep : countStep env (k, c) m = (k, c) := by
        simp [countStep, hr]
      rw [List.foldl_cons, hstep, ih]
      simp [reactedResolverIds, hr]
    | true =>
      have hne : m.reactions.isEmpty = false := reactions_nonempty_of_any _ hr
      have hstep : countStep env (k, c) m
          = creditUsers env
              (dictGet (reaction_data (env.reactionsFor m.ts)) RESOLUTION_EMOJI) k c := by
        simp [countStep, hne, hr]
      rw [List.foldl_cons, hstep, creditUsers_det env lookupU hdet, ih]
      simp [reactedResolverIds, hr, List.filterMap_append, List.foldl_append]

/-- Length of the credited-name list when every lookup succeeds: one name
per non-bot reference. -/
theorem creditName_length (lookupU : String → Option SlackUser) :
    ∀ us : List String, (∀ uid ∈ us, (lookupU uid).isSome = true) →
      (us.filterMap (creditName lookupU)).length
        = (us.filter (fun uid => ((lookupU uid).map (fun u => !u.is_bot)).getD false)).length := by
  intro us
  induction us with
  | nil => intro _; simp
  | cons uid rest ih =>
    intro hok
    obtain ⟨u, hu⟩ := Option.isSome_iff_exists.mp (hok uid (by simp))
    cases hb : u.is_bot <;>
      simp [creditName, hu, hb, List.filterMap_cons, List.filter_cons,
        ih (fun x hx => hok x (by simp [hx]))]

/-- C9, amended: the code performs a fresh `users_info` lookup per signal
with no per-run cache, so the single-display-name guarantee holds exactly
when the lookup environment is deterministic: in that case the run's
counter tallies every credit of a reference under the one display name
`creditName` assigns to that reference.  (With intermittently failing
lookups the same reference's credits can split between its resolved name
and its fallback label, see the counterexample.) -/
theorem deterministic_lookup_single_name (env : CountEnv)
    (lookupU : String → Option SlackUser)
    (hdet : ∀ k uid, env.usersInfo k uid = lookupU uid) (messages : List Message) :
    count_resolutions_by_reactions env messages
      = counterOfList ((reactedResolverIds env messages).filterMap (creditName lookupU)) := by
  unfold count_resolutions_by_reactions counterOfList
  exact countFold_det env lookupU hdet messages 0 []

/-- Witness for `deterministic_lookup_single_name`. -/
theorem deterministic_lookup_single_name_witness :
    count_resolutions_by_reactions steadyLookupEnv twoReactedMessages
      = counterOfList
          ((reactedResolverIds steadyLookupEnv twoReactedMessages).filterMap
            (creditName steadyLookup)) :=
  deterministic_lookup_single_name steadyLookupEnv steadyLookup (fun _ _ => rfl)
    twoReactedMessages

/-- C9, counterexample: the reference `U1` reacts on two messages; its first
`users_info` call succeeds with `Alice`, the second raises, and the run
splits `U1`'s credits across the two display names `Alice` and
`User U1`. -/
theorem identity_split_cex :
    count_resolutions_by_reactions flakyLookupEnv twoReactedMessages
        = [("Alice", 1), ("User U1", 1)] ∧
      ("Alice" : String) ≠ "User U1" := by
  decide

/-- C6: under the reaction strategy with a deterministic lookup environment,
an event carrying the resolution emoji yields exactly one signal per listed
reacting actor whose lookup reports a non-bot user, and when every reacting
actor is flagged as a bot the event yields zero signals (an empty
counter). -/
theorem reaction_signals_per_actor (env : CountEnv)
    (lookupU : String → Option SlackUser)
    (hdet : ∀ k uid, env.usersInfo k uid = lookupU uid) (m : Message) (us : List String)
    (hr : m.reactions.any (fun r => r.name == RESOLUTION_EMOJI) = true)
    (hus : dictGet (reaction_data (env.reactionsFor m.ts)) RESOLUTION_EMOJI = us)
    (hok : ∀ uid ∈ us, (lookupU uid).isSome = true) :
    counterTotal (count_resolutions_by_reactions env [m])
        = (us.filter (fun uid => ((lookupU uid).map (fun u => !u.is_bot)).getD false)).length ∧
      ((∀ uid ∈ us, ∃ u, lookupU uid = some u ∧ u.is_bot = true) →
        count_resolutions_by_reactions env [m] = []) := by
  have hcount : count_resolutions_by_reactions env [m]
      = (us.filterMap (creditName lookupU)).foldl incr [] := by
    unfold count_resolutions_by_reactions
    rw [countFold_det env lookupU hdet [m] 0 []]
    simp [reactedResolverIds, hr, hus]
  constructor
  · rw [hcount, counterTotal_foldl_incr, creditName_length lookupU us hok]
    simp [counterTotal]
  · intro hbot
    rw [hcount]
    have hnil : us.filterMap (creditName lookupU) = [] := by
      rw [List.filterMap_eq_nil_iff]
      intro uid hm
      obtain ⟨u, hu, hb⟩ := hbot uid hm
      simp [creditName, hu, hb]
    rw [hnil]
    rfl

/-- Witness for `reaction_signals_per_actor`. -/
theorem reaction_signals_per_actor_witness :
    counterTotal (count_resolutions_by_reactions steadyLookupEnv [oneReactedMessage]) = 1 := by
  have h := reaction_signals_per_actor steadyLookupEnv steadyLookup (fun _ _ => rfl)
    oneReactedMessage ["U1"] (by decide) (by decide) (by decide)
  exact h.1.trans (by decide)

/-- C10: when every identity lookup for the single reacting actor raises,
the run does not abort: the actor is still credited exactly one resolution
for the event, under the fallback label `"User <id>"` (so the credit is
granted even if the actor is in fact a bot, since the bot flag is
unobtainable). -/
theorem lookup_failure_fallback_credit (env : CountEnv) (m : Message) (uid : String)
    (hr : m.reactions.any (fun r => r.name == RESOLUTION_EMOJI) = true)
    (hus : dictGet (reaction_data (env.reactionsFor m.ts)) RESOLUTION_EMOJI = [uid])
    (hfail : ∀ k, env.usersInfo k uid = none) :
    count_resolutions_by_reactions env [m] = [("User " ++ uid, 1)] := by
  have hne : m.reactions.isEmpty = false := reactions_nonempty_of_any _ hr
  simp [count_resolutions_by_reactions, countStep, hne, hr, hus, creditUsers,
    hfail 0, incr]

/-- Witness for `lookup_failure_fallback_credit`. -/
theorem lookup_failure_fallback_credit_witness :
    count_resolutions_by_reactions failingLookupEnv [oneReactedMessage]
      = [("User " ++ "U9", 1)] :=
  lookup_failure_fallback_credit failingLookupEnv oneReactedMessage "U9"
    (by decide) (by decide) (fun _ => rfl)

/-- C8, counterexample: a self-authored history entry whose text contains
the exact rendered label for the window but not the fixed leaderboard
title is not detected: the guard requires the title marker as well, so
"returns true exactly when some entry is self-authored and contains the
window's label" fails. -/
theorem duplicate_guard_label_only_cex :
    labelOnlyHistory.any (fun m =>
        m.user == "B0" && strHasSub m.text "Jun 02 - Jun 08, 2025") = true ∧
      check_for_duplicate_leaderboard "B0" "Jun 02 - Jun 08, 2025" labelOnlyHistory
        = false := by
  decide

/-- C8, amended: `already_published` returns true exactly when, among the
fetched recent entries (at most 100), some entry is self-authored and its
text contains both the fixed title `"Weekly Resolution Leaderboard"` and
the exact rendered date-range label for the window. -/
theorem duplicate_guard_iff (botUserId dateRangeStr : String) (messages : List Message) :
    check_for_duplicate_leaderboard botUserId dateRangeStr messages = true ↔
      ∃ m ∈ messages, m.user = botUserId ∧
        strHasSub m.text "Weekly Resolution Leaderboard" = true ∧
        strHasSub m.text dateRangeStr = true := by
  simp [check_for_duplicate_leaderboard, List.any_eq_true, Bool.and_eq_true, beq_iff_eq,
    and_assoc]

/-- Keys of a counter after a bump: unchanged for a known name, appended for
a fresh one. -/
theorem counterKeys_incr (c : Counter) (n : String) :
    counterKeys (incr c n)
      = if n ∈ counterKeys c then counterKeys c else counterKeys c ++ [n] := by
  induction c with
  | nil => simp [incr, counterKeys]
  | cons p rest ih =>
    obtain ⟨n', k'⟩ := p
    by_cases h : n' = n
    · subst h
      simp [incr, counterKeys]
    · simp only [incr, if_neg h, counterKeys, List.map_cons] at ih ⊢
      rw [ih]
      by_cases hm : n ∈ List.map (fun p => p.1) rest <;>
        simp [hm, List.mem_cons, Ne.symm h]

/-- Keys of a counting fold evolve exactly like first-seen
deduplication. -/
theorem counterKeys_foldl_incr (names : List String) : ∀ c : Counter,
    counterKeys (names.foldl incr c)
      = names.foldl (fun acc n => if n ∈ acc then acc else acc ++ [n]) (counterKeys c) := by
  induction names with
  | nil => intro c; simp
  | cons n rest ih =>
    intro c
    rw [List.foldl_cons, List.foldl_cons, ih, counterKeys_incr]

/-- The keys of the counter built from a name sequence are its first-seen
deduplication, in order of first appearance. -/
theorem counterKeys_counterOfList (names : List String) :
    counterKeys (counterOfList names) = firstSeen names := by
  unfold counterOfList firstSeen
  rw [counterKeys_foldl_incr]
  rfl

/-- First-seen deduplication preserves freedom from duplicates. -/
theorem firstSeen_aux_nodup (names : List String) : ∀ acc : List String,
    acc.Nodup →
      (names.foldl (fun acc n => if n ∈ acc then acc else acc ++ [n]) acc).Nodup := by
  induction names with
  | nil => intro acc h; exact h
  | cons n rest ih =>
    intro acc h
    rw [List.foldl_cons]
    by_cases hm : n ∈ acc
    · rw [if_pos hm]
      exact ih acc h
    · rw [if_neg hm]
      refine ih _ ?_
      simp [List.nodup_append, h, hm]

/-- The deduplicated name sequence has no duplicates. -/
theorem firstSeen_nodup (names : List String) : (firstSeen names).Nodup :=
  firstSeen_aux_nodup names [] List.nodup_nil

/-- `idxOf` of the head. -/
theorem idxOf_cons_self (x : String) (xs : List String) : idxOf (x :: xs) x = 0 := by
  simp [idxOf]

/-- `idxOf` past a different head. -/
theorem idxOf_cons_ne (x n : String) (xs : List String) (h : x ≠ n) :
    idxOf (x :: xs) n = idxOf xs n + 1 := by
  simp [idxOf, h]

/-- In an association list with duplicate-free keys, entries are pairwise
ordered by the position of their key in the key list. -/
theorem assoc_pairwise_idx : ∀ l : List (String × Nat), (counterKeys l).Nodup →
    l.Pairwise (fun a b => idxOf (counterKeys l) a.1 < idxOf (counterKeys l) b.1) := by
  intro l
  induction l with
  | nil => intro _; exact List.Pairwise.nil
  | cons p rest ih =>
    intro hnd
    have hks : counterKeys (p :: rest) = p.1 :: counterKeys rest := rfl
    rw [hks] at hnd
    rw [List.nodup_cons] at hnd
    obtain ⟨hp, hrest⟩ := hnd
    rw [List.pairwise_cons]
    constructor
    · intro b hb
      have hbmem : b.1 ∈ counterKeys rest := List.mem_map_of_mem _ hb
      have hbne : p.1 ≠ b.1 := fun he => hp (he ▸ hbmem)
      rw [hks, idxOf_cons_self, idxOf_cons_ne p.1 b.1 _ hbne]
      omega
    · have := ih hrest
      refine List.Pairwise.imp_of_mem ?_ this
      intro a b ha hb hab
      have hane : p.1 ≠ a.1 := fun he => hp (he ▸ List.mem_map_of_mem _ ha)
      have hbne : p.1 ≠ b.1 := fun he => hp (he ▸ List.mem_map_of_mem _ hb)
      rw [hks, idxOf_cons_ne p.1 a.1 _ hane, idxOf_cons_ne p.1 b.1 _ hbne]
      omega

/-- Members of a stable insertion. -/
theorem mem_insertDesc (x y : String × Nat) : ∀ l : List (String × Nat),
    (y ∈ insertDesc x l ↔ y = x ∨ y ∈ l) := by
  intro l
  induction l with
  | nil => simp [insertDesc]
  | cons z zs ih =>
    by_cases h : x.2 < z.2
    · simp only [insertDesc, if_pos h, List.mem_cons, ih]
      tauto
    · simp only [insertDesc, if_neg h, List.mem_cons]

/-- The ranking relation: strictly more credits, or equal credits and
`P`-earlier (for C7, earlier first appearance in the deduplicated input). -/
theorem insertDesc_pairwise (P : (String × Nat) → (String × Nat) → Prop)
    (x : String × Nat) : ∀ l : List (String × Nat),
    l.Pairwise (fun a b => b.2 < a.2 ∨ (a.2 = b.2 ∧ P a b)) →
    (∀ y ∈ l, P x y) →
    (insertDesc x l).Pairwise (fun a b => b.2 < a.2 ∨ (a.2 = b.2 ∧ P a b)) := by
  intro l
  induction l with
  | nil =>
    intro _ _
    simp [insertDesc]
  | cons y ys ih =>
    intro hl hx
    rw [List.pairwise_cons] at hl
    obtain ⟨hy, hys⟩ := hl
    by_cases h : x.2 < y.2
    · rw [show insertDesc x (y :: ys) = y :: insertDesc x ys from by simp [insertDesc, h]]
      rw [List.pairwise_cons]
      constructor
      · intro z hz
        rcases (mem_insertDesc x z ys).mp hz with rfl | hz
        · exact Or.inl h
        · exact hy z hz
      · exact ih hys (fun z hz => hx z (by simp [hz]))
    · rw [show insertDesc x (y :: ys) = x :: y :: ys from by simp [insertDesc, h]]
      rw [List.pairwise_cons]
      constructor
      · intro z hz
        rcases List.mem_cons.mp hz with rfl | hz
        · rcases Nat.lt_or_ge z.2 x.2 with hlt | hge
          · exact Or.inl hlt
          · exact Or.inr ⟨by omega, hx z (by simp)⟩
        · rcases Nat.lt_or_ge z.2 x.2 with hlt | hge
          · exact Or.inl hlt
          · have hz2 : z.2 ≤ y.2 := by
              rcases hy z hz with h1 | ⟨h1, _⟩ <;> omega
            exact Or.inr ⟨by omega, hx z (by simp [hz])⟩
      · rw [List.pairwise_cons]
        exact ⟨hy, hys⟩

/-- The stable descending sort of a `P`-ordered counter is ordered by the
ranking relation, and introduces no foreign entries. -/
theorem most_common_pairwise (P : (String × Nat) → (String × Nat) → Prop) :
    ∀ c : Counter, c.Pairwise P →
    (most_common c).Pairwise (fun a b => b.2 < a.2 ∨ (a.2 = b.2 ∧ P a b)) ∧
      ∀ y ∈ most_common c, y ∈ c := by
  intro c
  induction c with
  | nil =>
    intro _
    exact ⟨List.Pairwise.nil, by simp [most_common]⟩
  | cons x rest ih =>
    intro hc
    rw [List.pairwise_cons] at hc
    obtain ⟨hx, hrest⟩ := hc
    obtain ⟨hp, hm⟩ := ih hrest
    have hstep : most_common (x :: rest) = insertDesc x (most_common rest) := rfl
    constructor
    · rw [hstep]
      exact insertDesc_pairwise P x (most_common rest) hp (fun y hy => hx y (hm y hy))
    · intro y hy
      rw [hstep] at hy
      rcases (mem_insertDesc x y (most_common rest)).mp hy with rfl | hy
      · simp
      · simp [hm y hy]

/-- C7: `most_common` of the counter built from a credited-name sequence is
sorted by credit count descending, and two agents with equal counts appear
in the order of their first appearance in the deduplicated input sequence
(the agent first seen earlier ranks higher). -/
theorem most_common_sorted_stable (sigs : List String) :
    (most_common (counterOfList sigs)).Pairwise
      (fun a b => b.2 < a.2 ∨ (a.2 = b.2 ∧
        idxOf (firstSeen sigs) a.1 < idxOf (firstSeen sigs) b.1)) ∧
    (most_common (counterOfList sigs)).Pairwise (fun a b => b.2 ≤ a.2) := by
  have hkeys : counterKeys (counterOfList sigs) = firstSeen sigs :=
    counterKeys_counterOfList sigs
  have hnd : (counterKeys (counterOfList sigs)).Nodup := by
    rw [hkeys]
    exact firstSeen_nodup sigs
  have hpair := assoc_pairwise_idx (counterOfList sigs) hnd
  simp only [hkeys] at hpair
  have h := most_common_pairwise
    (fun a b => idxOf (firstSeen sigs) a.1 < idxOf (firstSeen sigs) b.1)
    (counterOfList sigs) hpair
  refine ⟨h.1, h.1.imp ?_⟩
  intro a b hab
  rcases hab with h1 | ⟨h1, _⟩ <;> omega

end SupportLeaderboard
